import Mathlib

/-!
Verification development for `src/src/lever/user_dict_manager.cc` (librime's
`UserDictManager`).  The merge engine (`UserDictManager::Restore`), the
plain-text import commit rule (`UserDictManager::Import`), and the
synchronization drivers (`Synchronize`, `SynchronizeAll`) are shallowly
embedded below; the underlying key-value store is modelled as a map from
keys to record values, following the interface description of the spec (§6).
-/

namespace UserDictVerify

/-- Record keys, as character lists (modelling `std::string` keys of the
underlying store). -/
abbrev Key := List Char

/-- Modelled from the spec: the record value fields (§3): `commits` is the
signed usage counter, `dee` the decayed weight (a real score, embedded as a
rational), `tick` the logical-clock stamp.  The C++ type `UserDbValue` is
declared in `rime/dict/user_db.h`, which is not under `src/`. -/
structure UserDbValue where
  commits : Int
  dee : ℚ
  tick : Nat
deriving DecidableEq

/-- Modelled from the spec: a freshly constructed record has default / zero
fields (§4.1: malformed or absent metadata yields a default record). -/
def defaultValue : UserDbValue := ⟨0, 0, 0⟩

/-- Modelled from the spec: the decay formula `algo::formula_d` (declared in
`rime/algo/dynamics.h`, not under `src/`).  The spec (§4.2) requires a
deterministic rescaling, monotonically decaying in the elapsed clock distance
`t - ta` and leaving the weight unchanged at distance zero; the concrete curve
chosen here satisfies that contract for the call pattern `formula_d 0 t da ta`
with `ta ≤ t` used by the merge loop.  None of the theorems below depend on
the exact shape, only on determinism. -/
def formula_d (d t da ta : ℚ) : ℚ := d + da / (1 + (t - ta))

/-- Weight adjustment performed by `Restore` before comparison
(user_dict_manager.cc lines 119-120 for the snapshot side and 123-124 for the
destination side): if the record's stamp is strictly older than the clock
baseline, its weight is rescaled to that baseline; `commits` and `tick` are
untouched. -/
def snapAdjust (base : Nat) (v : UserDbValue) : UserDbValue :=
  if v.tick < base then { v with dee := formula_d 0 (base : ℚ) v.dee (v.tick : ℚ) } else v

/-- Index of the first `'\t'` in a key, modelling `key.find('\t')`
(user_dict_manager.cc line 112); `none` models `std::string::npos`. -/
def tabIndex : Key → Option Nat
  | [] => none
  | c :: rest => if c = '\t' then some 0 else (tabIndex rest).map (· + 1)

/-- Key handling of the merge scan (user_dict_manager.cc lines 112-117): a key
with no tab, or with the tab first, is skipped (`none`); a key whose character
immediately before the tab is not a space gets a single space inserted there
(`key.insert(tab_pos, 1, ' ')`); otherwise the key is returned unchanged. -/
def fixKey (key : Key) : Option Key :=
  match tabIndex key with
  | none => none
  | some 0 => none
  | some (p + 1) =>
    if key.get? p = some ' ' then some key
    else some (key.take (p + 1) ++ ' ' :: key.drop (p + 1))

/-- Conflict resolution for one record (user_dict_manager.cc lines 118-128):
the snapshot value is decay-adjusted to the snapshot clock `tr`; if the
destination holds the key, its value is decay-adjusted to the destination
clock `tl` and `commits` / `dee` are resolved by `max`; the stamp is set to
`tm` (`tick_max`). -/
def mergeVal (tl tr tm : Nat) (old : Option UserDbValue) (v : UserDbValue) : UserDbValue :=
  let v0 := snapAdjust tr v
  let v1 :=
    match old with
    | none => v0
    | some u0 =>
      let u := snapAdjust tl u0
      { v0 with commits := max v0.commits u.commits, dee := max v0.dee u.dee }
  { v1 with tick := tm }

/-- One iteration of the merge scan (user_dict_manager.cc lines 111-131) over
the destination record map: metadata-like keys are skipped; otherwise the
resolved value is written at the sanitized key. -/
def mergeStep (tl tr tm : Nat) (d : Key → Option UserDbValue) (e : Key × UserDbValue) :
    Key → Option UserDbValue :=
  match fixKey e.1 with
  | none => d
  | some k => fun k' => if k' = k then some (mergeVal tl tr tm (d k) e.2) else d k'

/-- State of one user dictionary: its record map plus the `/tick` and
`/user_id` metadata (spec §3; the store metadata interface is §6). -/
structure Dict where
  records : Key → Option UserDbValue
  tick : Nat
  userId : String

/-- The record map produced by the merge scan of `Restore`, folding the
snapshot's (post-metadata) records in cursor order into the destination. -/
def mergedRecords (d : Dict) (tr : Nat) (l : List (Key × UserDbValue)) :
    Key → Option UserDbValue :=
  List.foldl (mergeStep d.tick tr (max d.tick tr)) d.records l

/-- Number of merged entries (`num_entries`, user_dict_manager.cc lines
110-130): every scanned record that passes the tab check is counted (the
store's `Update` is modelled as always succeeding, per spec §6). -/
def numMerged (l : List (Key × UserDbValue)) : Nat :=
  (l.filter (fun e => (fixKey e.1).isSome)).length

/-- Outcome of the metadata update block (user_dict_manager.cc lines 132-140):
either both `MetaUpdate` calls succeed, or the `/tick` update throws (so the
`/user_id` update is never reached), or the `/user_id` update throws after a
successful `/tick` update.  Either exception is swallowed by the
`catch (...)`. -/
inductive MetaOutcome
  | ok
  | tickThrows
  | userIdThrows
deriving DecidableEq

/-- Input of one `Restore` call (user_dict_manager.cc lines 76-144).
`importOk` models the success of opening the temporary store and restoring the
snapshot file into it (lines 80-88); `isUserDb`, `dbName` model the checks of
lines 89-93; `destOpenOk` models `dest.Open()` (line 95); `snapTick` is the
snapshot's stored tick, `snapRecords` the snapshot's records as yielded by the
cursor after `Jump(" ")` skips the metadata section; `metaOutcome` fixes the
fate of the metadata update block. -/
structure RestoreInput where
  importOk : Bool
  isUserDb : Bool
  dbName : String
  snapTick : Nat
  snapRecords : List (Key × UserDbValue)
  destOpenOk : Bool
  dest : Dict
  metaOutcome : MetaOutcome
  localUserId : String

/-- Destination dictionary after the merge loop and the conditional metadata
update of `Restore` (user_dict_manager.cc lines 104-140). -/
def restoreDict (d : Dict) (tr : Nat) (l : List (Key × UserDbValue)) (uid : String)
    (mo : MetaOutcome) : Dict :=
  if 0 < numMerged l then
    match mo with
    | MetaOutcome.ok => ⟨mergedRecords d tr l, max d.tick tr, uid⟩
    | MetaOutcome.tickThrows => ⟨mergedRecords d tr l, d.tick, d.userId⟩
    | MetaOutcome.userIdThrows => ⟨mergedRecords d tr l, max d.tick tr, d.userId⟩
  else { d with records := mergedRecords d tr l }

/-- `UserDictManager::Restore` (user_dict_manager.cc lines 76-144): the four
early-return failures in source order, then the merge and the entry count;
`none` models `return false`. -/
def restore (inp : RestoreInput) : Option (Dict × Nat) :=
  if inp.importOk = false then none
  else if inp.isUserDb = false then none
  else if inp.dbName = "" then none
  else if inp.destOpenOk = false then none
  else
    some (restoreDict inp.dest inp.snapTick inp.snapRecords inp.localUserId inp.metaOutcome,
          numMerged inp.snapRecords)

/-- Commit handling of one imported line in `UserDictManager::Import`
(user_dict_manager.cc lines 215-223): fetch the stored value (default record
on a miss), then a positive parsed count takes `max` against the stored count,
a negative one replaces it (delete marker), and a zero count leaves the stored
value alone; the result is written back at the key. -/
def importStep (db : Key → Option UserDbValue) (key : Key) (commits : Int) :
    Key → Option UserDbValue :=
  let v := match db key with
    | some u => u
    | none => defaultValue
  let v := if 0 < commits then { v with commits := max commits v.commits }
           else if commits < 0 then { v with commits := commits }
           else v
  fun k' => if k' = key then some v else db k'

/-- One entry of the sync directory scanned by `Synchronize`
(user_dict_manager.cc lines 267-282): whether it is a subdirectory, whether it
contains a snapshot file for this dictionary, and whether the `Restore` of
that snapshot succeeds. -/
structure Peer where
  isDir : Bool
  hasSnapshot : Bool
  restoreOk : Bool
deriving DecidableEq

/-- The peer loop of `Synchronize` (user_dict_manager.cc lines 271-282):
starting from `success = true`, each peer subdirectory holding a snapshot is
merged, a failed merge clears `success` but the loop continues; the attempted
peers are accumulated. -/
def syncFold (peers : List Peer) : Bool × List Peer :=
  peers.foldl
    (fun acc p =>
      if p.isDir && p.hasSnapshot then (acc.1 && p.restoreOk, acc.2 ++ [p]) else acc)
    (true, [])

/-- Observable outcome of `Synchronize`: return value, the list of peers whose
snapshot merge was attempted, and whether the final `Backup` was attempted. -/
structure SyncResult where
  success : Bool
  attempted : List Peer
  backupAttempted : Bool

/-- `UserDictManager::Synchronize` (user_dict_manager.cc lines 256-288):
`dirOk` models the existence / creation of the sync directory (lines 259-266,
early `return false` without any merge or backup); otherwise all peers are
scanned, then `Backup` is attempted unconditionally (`backupOk` models its
success) and a backup failure clears `success`. -/
def synchronize (dirOk : Bool) (peers : List Peer) (backupOk : Bool) : SyncResult :=
  if dirOk = false then ⟨false, [], false⟩
  else
    let r := syncFold peers
    ⟨r.1 && backupOk, r.2, true⟩

/-- `UserDictManager::SynchronizeAll` (user_dict_manager.cc lines 290-299)
over the per-dictionary outcomes of `Synchronize`, in catalog order: the first
failing dictionary causes an immediate `return false`; the second component
counts how many `Synchronize` calls were made. -/
def synchronizeAll : List Bool → Bool × Nat
  | [] => (true, 0)
  | ok :: rest =>
    if ok then
      let r := synchronizeAll rest
      (r.1, r.2 + 1)
    else (false, 1)

/-- Commit-count evolution at one key: the step a merge write performs on the
stored commit count, used to relate two merge orders. -/
def cstep (o : Option Int) (c : Int) : Option Int :=
  some (match o with | none => c | some x => max c x)

/-- Commit contributions a snapshot record list makes at a fixed sanitized
key, in scan order. -/
def commitContribs (k : Key) (l : List (Key × UserDbValue)) : List Int :=
  (l.filter (fun e => fixKey e.1 = some k)).map (fun e => e.2.commits)

/-- Componentwise domination on the resolved fields: `domBy v u` says `u` is
at least `v` in both `commits` and `dee`. -/
def domBy (v u : UserDbValue) : Prop := v.commits ≤ u.commits ∧ v.dee ≤ u.dee

/-- A dictionary name used in concrete instantiations. -/
def wName : String := "dict"

/-- A local user identity used in concrete instantiations. -/
def wUid : String := "local"

/-- An empty destination dictionary at clock 0, used in concrete
instantiations. -/
def wDict : Dict := ⟨fun _ => none, 0, wUid⟩

/-- A well-formed record key `"a \tx"` used in concrete instantiations. -/
def wKeyA : Key := ['a', ' ', '\t', 'x']

/-- A snapshot record value at stamp 0. -/
def wValA : UserDbValue := ⟨1, 0, 0⟩

/-- A one-record snapshot content used in concrete instantiations. -/
def wSnapA : List (Key × UserDbValue) := [(wKeyA, wValA)]

/-- Result of merging `wSnapA` at snapshot clock 5 into the empty dictionary
(metadata update succeeding). -/
def wD3 : Dict := restoreDict wDict 5 wSnapA wUid MetaOutcome.ok

/-- A well-formed record key `"d \tz"` distinct from `wKeyA`. -/
def wKeyD : Key := ['d', ' ', '\t', 'z']

/-- A destination dictionary at clock 0 holding one record at `wKeyD` with
stamp 0. -/
def wDictD : Dict := ⟨fun k => if k = wKeyD then some ⟨2, 0, 0⟩ else none, 0, wUid⟩

/-- Result of merging `wSnapA` at snapshot clock 5 into `wDictD`. -/
def wD3c : Dict := restoreDict wDictD 5 wSnapA wUid MetaOutcome.ok

/-- A well-formed record key `"b \ty"` distinct from `wKeyA` and `wKeyD`. -/
def wKeyB : Key := ['b', ' ', '\t', 'y']

/-- A one-record snapshot content at stamp 5, keyed at `wKeyB`. -/
def wSnapB : List (Key × UserDbValue) := [(wKeyB, ⟨1, 0, 5⟩)]

/-- Merging snapshot A (`wSnapA` at clock 0) and then snapshot B (`wSnapB` at
clock 5) into the empty dictionary. -/
def cDAB : Dict :=
  restoreDict (restoreDict wDict 0 wSnapA wUid MetaOutcome.ok) 5 wSnapB wUid MetaOutcome.ok

/-- Merging snapshot B and then snapshot A into the empty dictionary. -/
def cDBA : Dict :=
  restoreDict (restoreDict wDict 5 wSnapB wUid MetaOutcome.ok) 0 wSnapA wUid MetaOutcome.ok

/-- An import destination holding commit count 5 at `wKeyA`. -/
def wDb4 : Key → Option UserDbValue := fun k => if k = wKeyA then some ⟨5, 0, 0⟩ else none

/-- A concrete sync-directory content: one merging peer, one non-directory
entry, and one peer whose snapshot merge fails. -/
def wPeers : List Peer := [⟨true, true, true⟩, ⟨false, true, true⟩, ⟨true, true, false⟩]

/-- Example key of the shape `"ab\tcd"` used by the spec's sanitization
example. -/
def exKeyRaw : Key := ['a', 'b', '\t', 'c', 'd']

/-- The sanitized form `"ab \tcd"` of `exKeyRaw`. -/
def exKeyFixed : Key := ['a', 'b', ' ', '\t', 'c', 'd']

theorem tabIndex_of_not_mem {key : Key} (h : '\t' ∉ key) : tabIndex key = none := by
  induction key with
  | nil => rfl
  | cons c rest ih =>
    simp only [List.mem_cons, not_or] at h
    have hc : ¬ c = '\t' := fun hh => h.1 hh.symm
    rw [tabIndex, if_neg hc, ih h.2]
    rfl

theorem tabIndex_append {a : Key} (b : Key) (ha : '\t' ∉ a) :
    tabIndex (a ++ '\t' :: b) = some a.length := by
  induction a with
  | nil => simp [tabIndex]
  | cons c rest ih =>
    simp only [List.mem_cons, not_or] at ha
    have hc : ¬ c = '\t' := fun hh => ha.1 hh.symm
    rw [List.cons_append, tabIndex, if_neg hc, ih ha.2]
    rfl

theorem get?_append_getLast? : ∀ (a l : Key) (p : Nat), a.length = p + 1 →
    (a ++ l).get? p = a.getLast? := by
  intro a
  induction a with
  | nil => intro l p hp; cases hp
  | cons c rest ih =>
    intro l p hp
    cases rest with
    | nil =>
      have hp0 : p = 0 := by simpa using hp.symm
      subst hp0
      rfl
    | cons d rest' =>
      cases p with
      | zero => simp [List.length_cons] at hp
      | succ q =>
        have hq : (d :: rest').length = q + 1 := by
          simpa [List.length_cons] using hp
        calc ((c :: d :: rest') ++ l).get? (q + 1)
            = ((d :: rest') ++ l).get? q := rfl
          _ = (d :: rest').getLast? := ih l q hq
          _ = (c :: d :: rest').getLast? := (List.getLast?_cons_cons).symm

theorem take_append_self : ∀ (a l : Key), (a ++ l).take a.length = a := by
  intro a l
  induction a with
  | nil => rfl
  | cons c rest ih => simp [List.take, ih]

theorem drop_append_self : ∀ (a l : Key), (a ++ l).drop a.length = l := by
  intro a l
  induction a with
  | nil => rfl
  | cons c rest ih => simp [List.drop, ih]

theorem mergeStep_skip {e : Key × UserDbValue} (tl tr tm : Nat)
    (d : Key → Option UserDbValue) (hfix : fixKey e.1 = none) :
    mergeStep tl tr tm d e = d := by
  rw [mergeStep, hfix]

theorem mergeStep_write {e : Key × UserDbValue} {k : Key} (tl tr tm : Nat)
    (d : Key → Option UserDbValue) (hfix : fixKey e.1 = some k) :
    mergeStep tl tr tm d e =
      fun k' => if k' = k then some (mergeVal tl tr tm (d k) e.2) else d k' := by
  rw [mergeStep, hfix]

theorem valExt {v u : UserDbValue} (hc : v.commits = u.commits) (hd : v.dee = u.dee)
    (ht : v.tick = u.tick) : v = u := by
  cases v; cases u; simp_all

theorem snapAdjust_commits (base : Nat) (v : UserDbValue) :
    (snapAdjust base v).commits = v.commits := by
  rw [snapAdjust]; split <;> rfl

theorem snapAdjust_tick (base : Nat) (v : UserDbValue) :
    (snapAdjust base v).tick = v.tick := by
  rw [snapAdjust]; split <;> rfl

theorem snapAdjust_of_ge {base : Nat} {v : UserDbValue} (h : ¬ v.tick < base) :
    snapAdjust base v = v := by
  rw [snapAdjust, if_neg h]

theorem mergeVal_tick (tl tr tm : Nat) (old : Option UserDbValue) (v : UserDbValue) :
    (mergeVal tl tr tm old v).tick = tm := by
  cases old <;> rfl

theorem mergeVal_commits (tl tr tm : Nat) (old : Option UserDbValue) (v : UserDbValue) :
    (mergeVal tl tr tm old v).commits =
      match old with
      | none => v.commits
      | some u => max v.commits u.commits := by
  cases old with
  | none => simp [mergeVal, snapAdjust_commits]
  | some u => simp [mergeVal, snapAdjust_commits]

theorem mergeVal_dee (tl tr tm : Nat) (old : Option UserDbValue) (v : UserDbValue) :
    (mergeVal tl tr tm old v).dee =
      match old with
      | none => (snapAdjust tr v).dee
      | some u => max (snapAdjust tr v).dee (snapAdjust tl u).dee := by
  cases old with
  | none => rfl
  | some u => rfl

theorem mergeStep_preserves {tl tr tm : Nat} (hlt : tl ≤ tm)
    (d : Key → Option UserDbValue) (e : Key × UserDbValue) {k : Key} {u w : UserDbValue}
    (hd : d k = some u) (ht : u.tick = tm) (hw : domBy w u) :
    ∃ u', (mergeStep tl tr tm d e) k = some u' ∧ u'.tick = tm ∧ domBy w u' := by
  cases hfix : fixKey e.1 with
  | none =>
    rw [mergeStep_skip tl tr tm d hfix]
    exact ⟨u, hd, ht, hw⟩
  | some k0 =>
    rw [mergeStep_write tl tr tm d hfix]
    by_cases hk : k = k0
    · subst hk
      refine ⟨mergeVal tl tr tm (d k) e.2, by simp, mergeVal_tick tl tr tm (d k) e.2, ?_, ?_⟩
      · rw [mergeVal_commits, hd]
        exact le_trans hw.1 (le_trans (le_max_right _ _) (le_of_eq rfl))
      · rw [mergeVal_dee, hd]
        show w.dee ≤ max (snapAdjust tr e.2).dee (snapAdjust tl u).dee
        have hu : snapAdjust tl u = u :=
          snapAdjust_of_ge (by rw [ht]; exact Nat.not_lt.mpr hlt)
        rw [hu]
        exact le_trans hw.2 (le_max_right _ _)
    · refine ⟨u, ?_, ht, hw⟩
      show (if k = k0 then some (mergeVal tl tr tm (d k0) e.2) else d k) = some u
      rw [if_neg hk]
      exact hd

theorem mergeStep_writes_dom {tl tr tm : Nat} (d : Key → Option UserDbValue)
    (e : Key × UserDbValue) {k : Key} (hfix : fixKey e.1 = some k) :
    ∃ u', (mergeStep tl tr tm d e) k = some u' ∧ u'.tick = tm ∧
      domBy (snapAdjust tr e.2) u' := by
  rw [mergeStep_write tl tr tm d hfix]
  refine ⟨mergeVal tl tr tm (d k) e.2, by simp, mergeVal_tick tl tr tm (d k) e.2, ?_, ?_⟩
  · rw [mergeVal_commits, snapAdjust_commits]
    cases d k with
    | none => exact le_refl _
    | some u0 => exact le_max_left _ _
  · rw [mergeVal_dee]
    cases d k with
    | none => exact le_refl _
    | some u0 => exact le_max_left _ _

theorem foldMerge_preserves {tl tr tm : Nat} (hlt : tl ≤ tm) :
    ∀ (l : List (Key × UserDbValue)) (d : Key → Option UserDbValue) (k : Key)
      (u w : UserDbValue), d k = some u → u.tick = tm → domBy w u →
      ∃ u', (List.foldl (mergeStep tl tr tm) d l) k = some u' ∧ u'.tick = tm ∧ domBy w u' := by
  intro l
  induction l with
  | nil => intro d k u w hd ht hw; exact ⟨u, hd, ht, hw⟩
  | cons e0 rest ih =>
    intro d k u w hd ht hw
    rw [List.foldl_cons]
    obtain ⟨u1, h1, ht1, hw1⟩ := mergeStep_preserves hlt d e0 hd ht hw
    exact ih _ k u1 w h1 ht1 hw1

theorem foldMerge_writes {tl tr tm : Nat} (hlt : tl ≤ tm) :
    ∀ (l : List (Key × UserDbValue)) (d : Key → Option UserDbValue)
      (e : Key × UserDbValue) (k : Key), e ∈ l → fixKey e.1 = some k →
      ∃ u, (List.foldl (mergeStep tl tr tm) d l) k = some u ∧ u.tick = tm ∧
        domBy (snapAdjust tr e.2) u := by
  intro l
  induction l with
  | nil => intro d e k he; cases he
  | cons e0 rest ih =>
    intro d e k he hfix
    rw [List.foldl_cons]
    rcases List.mem_cons.mp he with he0 | hrest
    · subst he0
      obtain ⟨u1, h1, ht1, hw1⟩ := mergeStep_writes_dom d e hfix
      exact foldMerge_preserves hlt rest _ k u1 _ h1 ht1 hw1
    · exact ih _ e k hrest hfix

theorem mergeStep_id {tr tm : Nat} (d : Key → Option UserDbValue) (e : Key × UserDbValue)
    (h : ∀ k, fixKey e.1 = some k →
      ∃ u, d k = some u ∧ u.tick = tm ∧ domBy (snapAdjust tr e.2) u) :
    mergeStep tm tr tm d e = d := by
  cases hfix : fixKey e.1 with
  | none => exact mergeStep_skip tm tr tm d hfix
  | some k =>
    obtain ⟨u, hdk, ht, hc, hdee⟩ := h k hfix
    rw [mergeStep_write tm tr tm d hfix]
    funext k'
    by_cases hk : k' = k
    · subst hk
      rw [if_pos rfl, hdk]
      have hu : snapAdjust tm u = u :=
        snapAdjust_of_ge (by rw [ht]; exact lt_irrefl tm)
      have hc' : e.2.commits ≤ u.commits := by rwa [snapAdjust_commits] at hc
      congr 1
      refine valExt ?_ ?_ ?_
      · rw [mergeVal_commits]
        exact max_eq_right hc'
      · rw [mergeVal_dee]
        show max (snapAdjust tr e.2).dee (snapAdjust tm u).dee = u.dee
        rw [hu]
        exact max_eq_right hdee
      · rw [mergeVal_tick]
        exact ht.symm
    · rw [if_neg hk]

theorem foldMerge_id {tr tm : Nat} :
    ∀ (l : List (Key × UserDbValue)) (d : Key → Option UserDbValue),
      (∀ e ∈ l, ∀ k, fixKey e.1 = some k →
        ∃ u, d k = some u ∧ u.tick = tm ∧ domBy (snapAdjust tr e.2) u) →
      List.foldl (mergeStep tm tr tm) d l = d := by
  intro l
  induction l with
  | nil => intro d _; rfl
  | cons e0 rest ih =>
    intro d h
    rw [List.foldl_cons, mergeStep_id d e0 (h e0 (List.mem_cons_self e0 rest))]
    exact ih d (fun e he k hk => h e (List.mem_cons_of_mem e0 he) k hk)

theorem foldMerge_frame (tl tr tm : Nat) :
    ∀ (l : List (Key × UserDbValue)) (d : Key → Option UserDbValue) (k : Key),
      (∀ e ∈ l, fixKey e.1 ≠ some k) →
      (List.foldl (mergeStep tl tr tm) d l) k = d k := by
  intro l
  induction l with
  | nil => intro d k _; rfl
  | cons e0 rest ih =>
    intro d k h
    rw [List.foldl_cons]
    have hrest := ih (mergeStep tl tr tm d e0) k
      (fun e he => h e (List.mem_cons_of_mem e0 he))
    rw [hrest]
    cases hfix : fixKey e0.1 with
    | none => rw [mergeStep_skip tl tr tm d hfix]
    | some k0 =>
      rw [mergeStep_write tl tr tm d hfix]
      have hk : ¬ k = k0 := fun hh => h e0 (List.mem_cons_self e0 rest) (hh ▸ hfix)
      show (if k = k0 then some (mergeVal tl tr tm (d k0) e0.2) else d k) = d k
      rw [if_neg hk]

theorem foldMerge_of_all_skipped (tl tr tm : Nat) :
    ∀ (l : List (Key × UserDbValue)) (d : Key → Option UserDbValue),
      (∀ e ∈ l, fixKey e.1 = none) →
      List.foldl (mergeStep tl tr tm) d l = d := by
  intro l
  induction l with
  | nil => intro d _; rfl
  | cons e0 rest ih =>
    intro d h
    rw [List.foldl_cons, mergeStep_skip tl tr tm d (h e0 (List.mem_cons_self e0 rest))]
    exact ih d (fun e he => h e (List.mem_cons_of_mem e0 he))

theorem numMerged_eq_zero_iff {l : List (Key × UserDbValue)} :
    numMerged l = 0 ↔ ∀ e ∈ l, fixKey e.1 = none := by
  rw [numMerged, List.length_eq_zero, List.filter_eq_nil_iff]
  constructor
  · intro h e he
    have := h e he
    simpa [Option.not_isSome_iff_eq_none] using this
  · intro h e he
    simp [Option.not_isSome_iff_eq_none, h e he]

/-- Claim C5: during the merge scan, a key with no tab separator or with the
tab as its first character is skipped entirely (not merged); a key whose
character immediately before the tab is not a space gets a single space
inserted before the tab; a key already carrying that space is left
unchanged. -/
theorem fixKey_spec (key : Key) :
    ('\t' ∉ key →
      fixKey key = none ∧
      ∀ tl tr tm d v, mergeStep tl tr tm d (key, v) = d) ∧
    (∀ rest, key = '\t' :: rest →
      fixKey key = none ∧
      ∀ tl tr tm d v, mergeStep tl tr tm d (key, v) = d) ∧
    (∀ a b, key = a ++ '\t' :: b → '\t' ∉ a → a ≠ [] →
      (a.getLast? ≠ some ' ' → fixKey key = some (a ++ ' ' :: '\t' :: b)) ∧
      (a.getLast? = some ' ' → fixKey key = some key)) := by
  refine ⟨?_, ?_, ?_⟩
  · intro h
    have hnone : fixKey key = none := by rw [fixKey, tabIndex_of_not_mem h]
    exact ⟨hnone, fun tl tr tm d v => mergeStep_skip tl tr tm d hnone⟩
  · intro rest hk
    have hnone : fixKey key = none := by
      subst hk
      rw [fixKey]
      have : tabIndex ('\t' :: rest) = some 0 := by simp [tabIndex]
      rw [this]
    exact ⟨hnone, fun tl tr tm d v => mergeStep_skip tl tr tm d hnone⟩
  · intro a b hk ha hne
    obtain ⟨p, hp⟩ : ∃ p, a.length = p + 1 :=
      ⟨a.length - 1, (Nat.succ_pred_eq_of_pos (List.length_pos.mpr hne)).symm⟩
    have htab : tabIndex key = some (p + 1) := by
      rw [hk, tabIndex_append b ha, hp]
    have hget : key.get? p = a.getLast? := by
      rw [hk]; exact get?_append_getLast? a ('\t' :: b) p hp
    constructor
    · intro hlast
      have hcond : ¬ key.get? p = some ' ' := by rw [hget]; exact hlast
      rw [fixKey, htab]
      show (if key.get? p = some ' ' then some key
            else some (key.take (p + 1) ++ ' ' :: key.drop (p + 1))) =
        some (a ++ ' ' :: '\t' :: b)
      rw [if_neg hcond]
      have htake : key.take (p + 1) = a := by
        rw [hk, ← hp]; exact take_append_self a ('\t' :: b)
      have hdrop : key.drop (p + 1) = '\t' :: b := by
        rw [hk, ← hp]; exact drop_append_self a ('\t' :: b)
      rw [htake, hdrop]
    · intro hlast
      have hcond : key.get? p = some ' ' := by rw [hget]; exact hlast
      rw [fixKey, htab]
      show (if key.get? p = some ' ' then some key
            else some (key.take (p + 1) ++ ' ' :: key.drop (p + 1))) = some key
      rw [if_pos hcond]

/-- Witness for C5: the spec's own example `"ab\tcd"` is rewritten to
`"ab \tcd"`, obtained by instantiating `fixKey_spec`. -/
theorem fixKey_spec_witness : fixKey exKeyRaw = some exKeyFixed :=
  ((fixKey_spec exKeyRaw).2.2 ['a', 'b'] ['c', 'd'] rfl (by decide) (by decide)).1 (by decide)

theorem restore_ok (nm : String) (hnm : nm ≠ "") (tr : Nat) (l : List (Key × UserDbValue))
    (d : Dict) (mo : MetaOutcome) (uid : String) :
    restore ⟨true, true, nm, tr, l, true, d, mo, uid⟩ =
      some (restoreDict d tr l uid mo, numMerged l) := by
  simp [restore, hnm]

theorem restoreDict_records (d : Dict) (tr : Nat) (l : List (Key × UserDbValue))
    (uid : String) (mo : MetaOutcome) :
    (restoreDict d tr l uid mo).records = mergedRecords d tr l := by
  unfold restoreDict
  split
  · cases mo <;> rfl
  · rfl

theorem restoreDict_ok_pos (d : Dict) (tr : Nat) (l : List (Key × UserDbValue))
    (uid : String) (hn : 0 < numMerged l) :
    restoreDict d tr l uid MetaOutcome.ok =
      Dict.mk (mergedRecords d tr l) (max d.tick tr) uid := by
  unfold restoreDict
  rw [if_pos hn]

theorem restoreDict_tickThrows_pos (d : Dict) (tr : Nat) (l : List (Key × UserDbValue))
    (uid : String) (hn : 0 < numMerged l) :
    restoreDict d tr l uid MetaOutcome.tickThrows =
      Dict.mk (mergedRecords d tr l) d.tick d.userId := by
  unfold restoreDict
  rw [if_pos hn]

theorem restoreDict_zero (d : Dict) (tr : Nat) (l : List (Key × UserDbValue))
    (uid : String) (mo : MetaOutcome) (hn : ¬ 0 < numMerged l) :
    restoreDict d tr l uid mo = { d with records := mergedRecords d tr l } := by
  unfold restoreDict
  rw [if_neg hn]

/-- Claim C1: merging the same snapshot into a destination twice yields, for
the record map, the logical clock and the owner identity, the same final
destination state (and the same merged-entry count) as merging it once: the
second pass recomputes the same `max` comparisons against the already-updated
values and re-writes the same `tick_max` stamp. -/
theorem restore_idempotent (nm : String) (hnm : nm ≠ "") (tr : Nat)
    (l : List (Key × UserDbValue)) (d : Dict) (uid : String) (d1 : Dict) (n : Nat)
    (hr : restore ⟨true, true, nm, tr, l, true, d, MetaOutcome.ok, uid⟩ = some (d1, n)) :
    restore ⟨true, true, nm, tr, l, true, d1, MetaOutcome.ok, uid⟩ = some (d1, n) := by
  rw [restore_ok nm hnm tr l d MetaOutcome.ok uid] at hr
  simp only [Option.some.injEq, Prod.mk.injEq] at hr
  obtain ⟨hd1, hn⟩ := hr
  subst hn
  rw [restore_ok nm hnm tr l d1 MetaOutcome.ok uid]
  by_cases h0 : 0 < numMerged l
  · have hd1' : d1 = Dict.mk (mergedRecords d tr l) (max d.tick tr) uid := by
      rw [← hd1, restoreDict_ok_pos d tr l uid h0]
    subst hd1'
    rw [restoreDict_ok_pos _ tr l uid h0]
    have htm : max (max d.tick tr) tr = max d.tick tr := max_eq_left (le_max_right _ _)
    have hfold : mergedRecords (Dict.mk (mergedRecords d tr l) (max d.tick tr) uid) tr l
        = mergedRecords d tr l := by
      show List.foldl (mergeStep (max d.tick tr) tr (max (max d.tick tr) tr))
        (mergedRecords d tr l) l = mergedRecords d tr l
      rw [htm]
      exact foldMerge_id l (mergedRecords d tr l) (fun e he k hk =>
        foldMerge_writes (le_max_left d.tick tr) l d.records e k he hk)
    rw [hfold]
    show some (Dict.mk (mergedRecords d tr l) (max (max d.tick tr) tr) uid, numMerged l) = _
    rw [htm]
  · have hz : numMerged l = 0 := Nat.eq_zero_of_not_pos h0
    have hskip : ∀ e ∈ l, fixKey e.1 = none := numMerged_eq_zero_iff.mp hz
    have hM : mergedRecords d tr l = d.records :=
      foldMerge_of_all_skipped d.tick tr (max d.tick tr) l d.records hskip
    have hd1' : d1 = d := by
      rw [← hd1, restoreDict_zero d tr l uid MetaOutcome.ok h0, hM]
    subst hd1'
    have hM1 : mergedRecords d1 tr l = d1.records :=
      foldMerge_of_all_skipped d1.tick tr (max d1.tick tr) l d1.records hskip
    rw [restoreDict_zero d1 tr l uid MetaOutcome.ok h0, hM1]

/-- Witness for C1: restoring an (empty) snapshot into the empty dictionary a
second time reproduces the first result. -/
theorem restore_idempotent_witness :
    restore ⟨true, true, wName, 0, [], true, wDict, MetaOutcome.ok, wUid⟩ = some (wDict, 0) :=
  restore_idempotent wName (by decide) 0 [] wDict wUid wDict 0 rfl

/-- Claim C3 (amended): after a successful merge that merged at least one
entry (with the metadata update succeeding), the destination clock equals
`max(previous destination clock, snapshot clock)` — in particular it is at
least that `max` — every record written by the merge carries a stamp equal to
the new dictionary clock, and records not touched by the merge keep their
previous value (so their stamp may remain below the clock). -/
theorem restore_clock (nm : String) (hnm : nm ≠ "") (tr : Nat)
    (l : List (Key × UserDbValue)) (d : Dict) (uid : String)
    (hn : 0 < numMerged l) (d' : Dict) (n : Nat)
    (hr : restore ⟨true, true, nm, tr, l, true, d, MetaOutcome.ok, uid⟩ = some (d', n)) :
    max d.tick tr ≤ d'.tick ∧ d'.tick = max d.tick tr ∧
    (∀ e ∈ l, ∀ k, fixKey e.1 = some k →
      ∃ u, d'.records k = some u ∧ u.tick = d'.tick) ∧
    (∀ k, (∀ e ∈ l, fixKey e.1 ≠ some k) → d'.records k = d.records k) := by
  rw [restore_ok nm hnm tr l d MetaOutcome.ok uid] at hr
  simp only [Option.some.injEq, Prod.mk.injEq] at hr
  obtain ⟨hd', hn'⟩ := hr
  rw [← hd', restoreDict_ok_pos d tr l uid hn]
  refine ⟨le_refl _, rfl, ?_, ?_⟩
  · intro e he k hk
    obtain ⟨u, hu, ht, _⟩ := foldMerge_writes (le_max_left d.tick tr) l d.records e k he hk
    exact ⟨u, hu, ht⟩
  · intro k hk
    exact foldMerge_frame d.tick tr (max d.tick tr) l d.records k hk

/-- Witness for C3: merging the one-record snapshot `wSnapA` at snapshot
clock 5 into the empty dictionary. -/
theorem restore_clock_witness :
    max wDict.tick 5 ≤ wD3.tick ∧ wD3.tick = max wDict.tick 5 ∧
    (∀ e ∈ wSnapA, ∀ k, fixKey e.1 = some k →
      ∃ u, wD3.records k = some u ∧ u.tick = wD3.tick) ∧
    (∀ k, (∀ e ∈ wSnapA, fixKey e.1 ≠ some k) → wD3.records k = wDict.records k) :=
  restore_clock wName (by decide) 5 wSnapA wDict wUid (by decide) wD3 1 rfl

/-- Counterexample for C3 as stated: a successful merge (one entry merged,
clock raised to 5) leaves a pre-existing untouched record of the destination
at its old stamp 0, so not every record's stamp equals the new dictionary
clock. -/
theorem restore_clock_counterexample :
    restore ⟨true, true, wName, 5, wSnapA, true, wDictD, MetaOutcome.ok, wUid⟩ =
      some (wD3c, 1) ∧
    wD3c.tick = 5 ∧
    ¬ (∀ k u, wD3c.records k = some u → u.tick = wD3c.tick) := by
  refine ⟨rfl, by decide, ?_⟩
  intro h
  exact absurd (h wKeyD ⟨2, 0, 0⟩ (by decide)) (by decide)

/-- Claim C10: when at least one entry is merged and the `/tick` metadata
update throws, the exception is swallowed: `Restore` still returns success,
the destination's stored clock and owner identity are unchanged, and every
merged record carries the stamp `tick_max` — strictly above the stored clock
whenever the snapshot's clock exceeds the destination's. -/
theorem restore_tickThrow (nm : String) (hnm : nm ≠ "") (tr : Nat)
    (l : List (Key × UserDbValue)) (d : Dict) (uid : String)
    (hn : 0 < numMerged l) :
    ∃ d' n, restore ⟨true, true, nm, tr, l, true, d, MetaOutcome.tickThrows, uid⟩ =
        some (d', n) ∧
      0 < n ∧ d'.tick = d.tick ∧ d'.userId = d.userId ∧
      (∀ e ∈ l, ∀ k, fixKey e.1 = some k →
        ∃ u, d'.records k = some u ∧ u.tick = max d.tick tr) ∧
      (d.tick < tr → d'.tick < max d.tick tr) := by
  refine ⟨restoreDict d tr l uid MetaOutcome.tickThrows, numMerged l,
    restore_ok nm hnm tr l d MetaOutcome.tickThrows uid, hn, ?_, ?_, ?_, ?_⟩
  · rw [restoreDict_tickThrows_pos d tr l uid hn]
  · rw [restoreDict_tickThrows_pos d tr l uid hn]
  · intro e he k hk
    obtain ⟨u, hu, ht, _⟩ := foldMerge_writes (le_max_left d.tick tr) l d.records e k he hk
    rw [restoreDict_tickThrows_pos d tr l uid hn]
    exact ⟨u, hu, ht⟩
  · intro hlt
    rw [restoreDict_tickThrows_pos d tr l uid hn]
    exact lt_of_lt_of_le hlt (le_max_right _ _)

/-- Witness for C10: one merged entry with snapshot clock 5 against an empty
destination at clock 0 and a throwing `/tick` update. -/
theorem restore_tickThrow_witness :
    ∃ d' n, restore ⟨true, true, wName, 5, wSnapA, true, wDict, MetaOutcome.tickThrows, wUid⟩ =
        some (d', n) ∧
      0 < n ∧ d'.tick = wDict.tick ∧ d'.userId = wDict.userId ∧
      (∀ e ∈ wSnapA, ∀ k, fixKey e.1 = some k →
        ∃ u, d'.records k = some u ∧ u.tick = max wDict.tick 5) ∧
      (wDict.tick < 5 → d'.tick < max wDict.tick 5) :=
  restore_tickThrow wName (by decide) 5 wSnapA wDict wUid (by decide)

/-- Claim C7: with the metadata update succeeding, a merge rewrites the
destination's clock metadata to `tick_max` and its owner identity to the
local identity exactly when at least one entry was merged; when zero entries
are merged the destination (metadata included) is left entirely unchanged. -/
theorem restore_meta_frame (nm : String) (hnm : nm ≠ "") (tr : Nat)
    (l : List (Key × UserDbValue)) (d : Dict) (uid : String) (d' : Dict) (n : Nat)
    (hr : restore ⟨true, true, nm, tr, l, true, d, MetaOutcome.ok, uid⟩ = some (d', n)) :
    (n = 0 → d' = d) ∧
    (0 < n → d'.tick = max d.tick tr ∧ d'.userId = uid) := by
  rw [restore_ok nm hnm tr l d MetaOutcome.ok uid] at hr
  simp only [Option.some.injEq, Prod.mk.injEq] at hr
  obtain ⟨hd', hn⟩ := hr
  subst hn
  constructor
  · intro h0
    have hskip := numMerged_eq_zero_iff.mp h0
    have hM : mergedRecords d tr l = d.records :=
      foldMerge_of_all_skipped d.tick tr (max d.tick tr) l d.records hskip
    rw [← hd', restoreDict_zero d tr l uid MetaOutcome.ok (by rw [h0]; exact lt_irrefl 0), hM]
  · intro hpos
    rw [← hd', restoreDict_ok_pos d tr l uid hpos]
    exact ⟨rfl, rfl⟩

/-- Witness for C7: the one-entry merge of `wSnapA` into the empty dictionary
updates clock and owner; the implications are discharged at the concrete
count 1. -/
theorem restore_meta_frame_witness :
    ((1 : Nat) = 0 → wD3 = wDict) ∧
    ((0 : Nat) < 1 → wD3.tick = max wDict.tick 5 ∧ wD3.userId = wUid) :=
  restore_meta_frame wName (by decide) 5 wSnapA wDict wUid wD3 1 rfl

/-- Claim C6: `Restore` fails exactly when the snapshot cannot be imported
into the temporary store, the imported store is not a user dictionary export,
its embedded dictionary name is empty, or the destination cannot be opened;
in every other case it succeeds, and in particular a merge of zero entries
still returns success. -/
theorem restore_failure_iff (inp : RestoreInput) :
    (restore inp = none ↔
      inp.importOk = false ∨ inp.isUserDb = false ∨ inp.dbName = "" ∨
        inp.destOpenOk = false) ∧
    (inp.importOk = true → inp.isUserDb = true → inp.dbName ≠ "" → inp.destOpenOk = true →
      numMerged inp.snapRecords = 0 → ∃ d', restore inp = some (d', 0)) := by
  constructor
  · rw [restore]
    by_cases h1 : inp.importOk = false
    · simp [h1]
    · rw [if_neg h1]
      by_cases h2 : inp.isUserDb = false
      · simp [h1, h2]
      · rw [if_neg h2]
        by_cases h3 : inp.dbName = ""
        · simp [h1, h2, h3]
        · rw [if_neg h3]
          by_cases h4 : inp.destOpenOk = false
          · simp [h1, h2, h3, h4]
          · rw [if_neg h4]
            simp [h1, h2, h3, h4]
  · intro h1 h2 h3 h4 h0
    refine ⟨restoreDict inp.dest inp.snapTick inp.snapRecords inp.localUserId
      inp.metaOutcome, ?_⟩
    simp [restore, h1, h2, h3, h4, h0]

/-- Witness for C6: a zero-entry merge (empty snapshot) into the empty
dictionary succeeds with count 0. -/
theorem restore_failure_iff_witness :
    ∃ d', restore ⟨true, true, wName, 0, [], true, wDict, MetaOutcome.ok, wUid⟩ =
      some (d', 0) :=
  (restore_failure_iff ⟨true, true, wName, 0, [], true, wDict, MetaOutcome.ok, wUid⟩).2
    rfl rfl (by decide) rfl rfl

theorem restoreDict_tick_ok (d : Dict) (tr : Nat) (l : List (Key × UserDbValue))
    (uid : String) :
    (restoreDict d tr l uid MetaOutcome.ok).tick =
      if 0 < numMerged l then max d.tick tr else d.tick := by
  unfold restoreDict
  split <;> rfl

theorem restoreDict_userId_ok (d : Dict) (tr : Nat) (l : List (Key × UserDbValue))
    (uid : String) :
    (restoreDict d tr l uid MetaOutcome.ok).userId =
      if 0 < numMerged l then uid else d.userId := by
  unfold restoreDict
  split <;> rfl

theorem cstep_rightcomm (o : Option Int) (a b : Int) :
    cstep (cstep o a) b = cstep (cstep o b) a := by
  cases o with
  | none => simp [cstep, max_comm]
  | some x => simp [cstep, max_left_comm]

theorem foldl_cstep_out (l : List Int) : ∀ (o : Option Int) (a : Int),
    List.foldl cstep (cstep o a) l = cstep (List.foldl cstep o l) a := by
  induction l with
  | nil => intro o a; rfl
  | cons c rest ih =>
    intro o a
    rw [List.foldl_cons, List.foldl_cons, cstep_rightcomm o a c, ih (cstep o c) a]

theorem foldl_cstep_swap (l1 l2 : List Int) : ∀ (o : Option Int),
    List.foldl cstep (List.foldl cstep o l1) l2 =
      List.foldl cstep (List.foldl cstep o l2) l1 := by
  induction l1 with
  | nil => intro o; rfl
  | cons a rest ih =>
    intro o
    rw [List.foldl_cons, List.foldl_cons, ih (cstep o a), foldl_cstep_out l2 o a]

theorem foldMerge_commits_at (tl tr tm : Nat) :
    ∀ (l : List (Key × UserDbValue)) (d : Key → Option UserDbValue) (k : Key),
      ((List.foldl (mergeStep tl tr tm) d l) k).map UserDbValue.commits =
        List.foldl cstep ((d k).map UserDbValue.commits) (commitContribs k l) := by
  intro l
  induction l with
  | nil => intro d k; rfl
  | cons e0 rest ih =>
    intro d k
    rw [List.foldl_cons, ih]
    cases hfix : fixKey e0.1 with
    | none =>
      rw [mergeStep_skip tl tr tm d hfix]
      have hcontribs : commitContribs k (e0 :: rest) = commitContribs k rest := by
        simp [commitContribs, List.filter_cons, hfix]
      rw [hcontribs]
    | some k0 =>
      by_cases hk : k0 = k
      · have hstep : (mergeStep tl tr tm d e0) k = some (mergeVal tl tr tm (d k) e0.2) := by
          rw [mergeStep_write tl tr tm d hfix]
          show (if k = k0 then some (mergeVal tl tr tm (d k0) e0.2) else d k) =
            some (mergeVal tl tr tm (d k) e0.2)
          rw [if_pos hk.symm, hk]
        have hcontribs : commitContribs k (e0 :: rest) =
            e0.2.commits :: commitContribs k rest := by
          simp [commitContribs, List.filter_cons, hfix, hk]
        have hval : ((mergeStep tl tr tm d e0) k).map UserDbValue.commits =
            cstep ((d k).map UserDbValue.commits) e0.2.commits := by
          rw [hstep]
          cases hdk : d k <;> simp [hdk, mergeVal_commits, cstep]
        rw [hval, hcontribs, List.foldl_cons]
      · have hstep : (mergeStep tl tr tm d e0) k = d k := by
          rw [mergeStep_write tl tr tm d hfix]
          show (if k = k0 then some (mergeVal tl tr tm (d k0) e0.2) else d k) = d k
          rw [if_neg (fun hh => hk hh.symm)]
        have hcontribs : commitContribs k (e0 :: rest) = commitContribs k rest := by
          simp [commitContribs, List.filter_cons, hfix, hk]
        rw [hstep, hcontribs]

theorem mergedRecords_commits_at (d : Dict) (tr : Nat) (l : List (Key × UserDbValue))
    (k : Key) :
    ((mergedRecords d tr l) k).map UserDbValue.commits =
      List.foldl cstep ((d.records k).map UserDbValue.commits) (commitContribs k l) :=
  foldMerge_commits_at d.tick tr (max d.tick tr) l d.records k

/-- Claim C2 (amended): for every starting destination state and snapshots A
and B, merging A then B via `Restore` yields the same final commit count at
every key, the same final dictionary clock, and the same final owner identity
as merging B then A; the final weights and stamps of individual records need
not coincide when the snapshots' clocks differ. -/
theorem restore_commute (nm : String) (hnm : nm ≠ "") (uid : String) (d : Dict)
    (ta tb : Nat) (la lb : List (Key × UserDbValue))
    (d1 d2 e1 e2 : Dict) (n1 n2 m1 m2 : Nat)
    (hA : restore ⟨true, true, nm, ta, la, true, d, MetaOutcome.ok, uid⟩ = some (d1, n1))
    (hAB : restore ⟨true, true, nm, tb, lb, true, d1, MetaOutcome.ok, uid⟩ = some (d2, n2))
    (hB : restore ⟨true, true, nm, tb, lb, true, d, MetaOutcome.ok, uid⟩ = some (e1, m1))
    (hBA : restore ⟨true, true, nm, ta, la, true, e1, MetaOutcome.ok, uid⟩ = some (e2, m2)) :
    d2.tick = e2.tick ∧ d2.userId = e2.userId ∧
    ∀ k, (d2.records k).map UserDbValue.commits =
      (e2.records k).map UserDbValue.commits := by
  rw [restore_ok nm hnm ta la d MetaOutcome.ok uid] at hA
  simp only [Option.some.injEq, Prod.mk.injEq] at hA
  obtain ⟨hd1, hn1⟩ := hA
  subst hd1
  rw [restore_ok nm hnm tb lb _ MetaOutcome.ok uid] at hAB
  simp only [Option.some.injEq, Prod.mk.injEq] at hAB
  obtain ⟨hd2, hn2⟩ := hAB
  subst hd2
  rw [restore_ok nm hnm tb lb d MetaOutcome.ok uid] at hB
  simp only [Option.some.injEq, Prod.mk.injEq] at hB
  obtain ⟨he1, hm1⟩ := hB
  subst he1
  rw [restore_ok nm hnm ta la _ MetaOutcome.ok uid] at hBA
  simp only [Option.some.injEq, Prod.mk.injEq] at hBA
  obtain ⟨he2, hm2⟩ := hBA
  subst he2
  refine ⟨?_, ?_, ?_⟩
  · simp only [restoreDict_tick_ok]
    by_cases hA0 : 0 < numMerged la <;> by_cases hB0 : 0 < numMerged lb <;>
      simp [hA0, hB0]
    rw [max_assoc, max_assoc, max_comm ta tb]
  · simp only [restoreDict_userId_ok]
    by_cases hA0 : 0 < numMerged la <;> by_cases hB0 : 0 < numMerged lb <;>
      simp [hA0, hB0]
  · intro k
    simp only [restoreDict_records, mergedRecords_commits_at]
    exact foldl_cstep_swap (commitContribs k la) (commitContribs k lb)
      ((d.records k).map UserDbValue.commits)

/-- Witness for C2 (amended): two empty snapshots merged in either order into
the empty dictionary. -/
theorem restore_commute_witness :
    wDict.tick = wDict.tick ∧ wDict.userId = wDict.userId ∧
    ∀ k, (wDict.records k).map UserDbValue.commits =
      (wDict.records k).map UserDbValue.commits :=
  restore_commute wName (by decide) wUid wDict 0 0 [] [] wDict wDict wDict wDict 0 0 0 0
    rfl rfl rfl rfl

/-- Counterexample for C2 as stated: with destination clock 0, snapshot A at
clock 0 holding only `wKeyA` and snapshot B at clock 5 holding only `wKeyB`,
both merge orders succeed, but the record at `wKeyA` (present only in A) ends
with stamp 0 after merging A then B and with stamp 5 after merging B then A,
so the final record sets differ. -/
theorem restore_commute_counterexample :
    restore ⟨true, true, wName, 0, wSnapA, true, wDict, MetaOutcome.ok, wUid⟩ =
      some (restoreDict wDict 0 wSnapA wUid MetaOutcome.ok, 1) ∧
    restore ⟨true, true, wName, 5, wSnapB, true,
        restoreDict wDict 0 wSnapA wUid MetaOutcome.ok, MetaOutcome.ok, wUid⟩ =
      some (cDAB, 1) ∧
    restore ⟨true, true, wName, 5, wSnapB, true, wDict, MetaOutcome.ok, wUid⟩ =
      some (restoreDict wDict 5 wSnapB wUid MetaOutcome.ok, 1) ∧
    restore ⟨true, true, wName, 0, wSnapA, true,
        restoreDict wDict 5 wSnapB wUid MetaOutcome.ok, MetaOutcome.ok, wUid⟩ =
      some (cDBA, 1) ∧
    (cDAB.records wKeyA).map UserDbValue.tick = some 0 ∧
    (cDBA.records wKeyA).map UserDbValue.tick = some 5 :=
  ⟨rfl, rfl, rfl, rfl, by decide, by decide⟩

/-- Claim C4 (amended): for a line handled by `Import` whose key already holds
a record with commit count `u.commits`: a negative parsed count `c` replaces
the stored count (tombstone), a zero count leaves the stored count unchanged,
and a positive count stores `max c u.commits`. -/
theorem importStep_commits (db : Key → Option UserDbValue) (key : Key) (c : Int)
    (u : UserDbValue) (hu : db key = some u) :
    ∃ w, (importStep db key c) key = some w ∧
      w.commits = if 0 < c then max c u.commits else if c < 0 then c else u.commits := by
  unfold importStep
  rw [hu]
  by_cases h1 : 0 < c
  · refine ⟨{ u with commits := max c u.commits }, ?_, ?_⟩
    · simp [if_pos h1]
    · simp [if_pos h1]
  · by_cases h2 : c < 0
    · refine ⟨{ u with commits := c }, ?_, ?_⟩
      · simp [if_neg h1, if_pos h2]
      · simp [if_neg h1, if_pos h2]
    · refine ⟨u, ?_, ?_⟩
      · simp [if_neg h1, if_neg h2]
      · simp [if_neg h1, if_neg h2]

/-- Witness for C4: importing the tombstone count `-1` over a stored count 5
leaves `-1`. -/
theorem importStep_commits_witness :
    ∃ w, (importStep wDb4 wKeyA (-1)) wKeyA = some w ∧
      w.commits = if (0 : Int) < -1 then max (-1) 5 else if (-1 : Int) < 0 then -1 else 5 :=
  importStep_commits wDb4 wKeyA (-1) ⟨5, 0, 0⟩ rfl

/-- Counterexample for C4 as stated: importing a parsed count of 0 for a key
stored with count 5 leaves the stored count at 5, while the claim's
`c ≤ 0` clause demands that it become 0. -/
theorem importStep_commits_counterexample :
    ((importStep wDb4 wKeyA 0) wKeyA).map UserDbValue.commits = some 5 ∧
    ¬ ((importStep wDb4 wKeyA 0) wKeyA).map UserDbValue.commits = some 0 :=
  ⟨by decide, by decide⟩

theorem syncFold_go (l : List Peer) : ∀ (b : Bool) (acc : List Peer),
    List.foldl
      (fun acc p =>
        if p.isDir && p.hasSnapshot then (acc.1 && p.restoreOk, acc.2 ++ [p]) else acc)
      (b, acc) l =
    (b && l.all (fun p => !(p.isDir && p.hasSnapshot) || p.restoreOk),
     acc ++ l.filter (fun p => p.isDir && p.hasSnapshot)) := by
  induction l with
  | nil => intro b acc; simp
  | cons p rest ih =>
    intro b acc
    rw [List.foldl_cons]
    by_cases hp : (p.isDir && p.hasSnapshot) = true
    · rw [if_pos hp, ih]
      simp only [Prod.mk.injEq]
      constructor
      · rw [List.all_cons,
          show (!(p.isDir && p.hasSnapshot) || p.restoreOk) = p.restoreOk by rw [hp]; rfl,
          Bool.and_assoc]
      · rw [List.filter_cons, if_pos hp, List.append_assoc]
        rfl
    · have hpf : (p.isDir && p.hasSnapshot) = false := by
        simpa using hp
      rw [if_neg hp, ih]
      simp only [Prod.mk.injEq]
      constructor
      · rw [List.all_cons,
          show (!(p.isDir && p.hasSnapshot) || p.restoreOk) = true by rw [hpf]; rfl,
          Bool.true_and]
      · rw [List.filter_cons, if_neg hp]

theorem syncFold_eq (peers : List Peer) :
    syncFold peers =
      (peers.all (fun p => !(p.isDir && p.hasSnapshot) || p.restoreOk),
       peers.filter (fun p => p.isDir && p.hasSnapshot)) := by
  rw [syncFold, syncFold_go peers true []]
  simp

/-- Claim C8: when the sync directory is available, `Synchronize` attempts the
snapshot merge of every peer subdirectory holding a snapshot (even after an
earlier merge fails), then attempts the final `Backup` unconditionally, and
returns success exactly when every attempted peer merge and the final backup
succeeded. -/
theorem synchronize_spec (dirOk : Bool) (peers : List Peer) (backupOk : Bool)
    (hd : dirOk = true) :
    (synchronize dirOk peers backupOk).attempted =
      peers.filter (fun p => p.isDir && p.hasSnapshot) ∧
    (synchronize dirOk peers backupOk).backupAttempted = true ∧
    ((synchronize dirOk peers backupOk).success = true ↔
      (∀ p ∈ peers.filter (fun p => p.isDir && p.hasSnapshot), p.restoreOk = true) ∧
        backupOk = true) := by
  subst hd
  unfold synchronize
  rw [if_neg (by decide)]
  refine ⟨?_, rfl, ?_⟩
  · show (syncFold peers).2 = peers.filter (fun p => p.isDir && p.hasSnapshot)
    rw [syncFold_eq]
  · show ((syncFold peers).1 && backupOk) = true ↔ _
    rw [syncFold_eq]
    simp only [Bool.and_eq_true, List.all_eq_true, List.mem_filter]
    constructor
    · rintro ⟨hall, hb⟩
      refine ⟨?_, hb⟩
      rintro p ⟨hmem, hcond⟩
      have hp := hall p hmem
      simpa [hcond] using hp
    · rintro ⟨hfilt, hb⟩
      refine ⟨?_, hb⟩
      intro p hmem
      by_cases hc : (p.isDir && p.hasSnapshot) = true
      · have hr := hfilt p ⟨hmem, by simpa using hc⟩
        simp [hc, hr]
      · simp only [Bool.not_eq_true] at hc
        simp [hc]

/-- Witness for C8: three sync-directory entries — a succeeding peer, a plain
file, and a failing peer — with a succeeding final backup. -/
theorem synchronize_spec_witness :
    (synchronize true wPeers true).attempted =
      wPeers.filter (fun p => p.isDir && p.hasSnapshot) ∧
    (synchronize true wPeers true).backupAttempted = true ∧
    ((synchronize true wPeers true).success = true ↔
      (∀ p ∈ wPeers.filter (fun p => p.isDir && p.hasSnapshot), p.restoreOk = true) ∧
        true = true) :=
  synchronize_spec true wPeers true rfl

/-- Claim C9: `SynchronizeAll` synchronizes the local dictionaries in order,
returns failure at the first failing dictionary without attempting the later
ones, and over zero local dictionaries succeeds after zero `Synchronize`
calls. -/
theorem synchronizeAll_spec :
    synchronizeAll [] = (true, 0) ∧
    (∀ l : List Bool, (∀ b ∈ l, b = true) → synchronizeAll l = (true, l.length)) ∧
    (∀ l1 l2 : List Bool, (∀ b ∈ l1, b = true) →
      synchronizeAll (l1 ++ false :: l2) = (false, l1.length + 1)) := by
  refine ⟨rfl, ?_, ?_⟩
  · intro l h
    induction l with
    | nil => rfl
    | cons b rest ih =>
      have hb : b = true := h b (List.mem_cons_self b rest)
      subst hb
      have ih' := ih (fun x hx => h x (List.mem_cons_of_mem _ hx))
      simp [synchronizeAll, ih']
  · intro l1 l2 h
    induction l1 with
    | nil => rfl
    | cons b rest ih =>
      have hb : b = true := h b (List.mem_cons_self b rest)
      subst hb
      have ih' := ih (fun x hx => h x (List.mem_cons_of_mem _ hx))
      simp [synchronizeAll, ih']

/-- Witness for C9: a succeeding dictionary followed by a failing one and a
further dictionary; synchronization stops after two attempts. -/
theorem synchronizeAll_spec_witness : synchronizeAll [true, false, true] = (false, 2) :=
  synchronizeAll_spec.2.2 [true] [true] (by decide)

end UserDictVerify
